import Mathlib

/-!
Shallow embedding of the MIPTEX texture pipeline of `qcli/wad/cli.py`
(the `wad` command-line tool), together with theorems checking the
specification's claims about it.

Conventions of the embedding:
* An indexed (palette, "P"-mode) image is a width, a height and a row-major
  list of palette indices; an RGB image likewise holds RGB triples.
* The flattened Quake palette (the `palette` variable of the source, 768
  channel bytes) is a `List Nat`; machine bytes are `Nat`s.
* External collaborators (PIL's quantizer and resamplers, `os.path`
  helpers, the `vgio` wad container) are modelled from the specification's
  description of them; everything else is translated from the source.
-/

/-- One RGB color: a red, green and blue channel value. -/
abbrev Rgb := Nat × Nat × Nat

/-- An indexed-color (P mode) image: `pixels` is the row-major list of
palette indices, intended to have length `width * height`. -/
structure IndexedImage where
  width : Nat
  height : Nat
  pixels : List Nat
deriving Repr, DecidableEq

/-- An RGB image: `pixels` is the row-major list of RGB triples. -/
structure RgbImage where
  width : Nat
  height : Nat
  pixels : List Rgb
deriving Repr, DecidableEq

/-- Pixel lookup at coordinates `(x, y)`, row-major: models
`img.getpixel((x, y))` of PIL on a P-mode image. -/
def getpixel (img : IndexedImage) (x y : Nat) : Nat :=
  img.pixels.getD (y * img.width + x) 0

/-- Translation of `has_fullbright` (cli.py lines 22 to 28): scan rows top to
bottom, each row left to right, and report whether some pixel's palette index
exceeds 223.  `List.any` short-circuits at the first hit, like the early
`return True`; the Python function falls off the end (returning the falsy
`None`) when no pixel matches, which this embedding renders as `false`. -/
def has_fullbright (img : IndexedImage) : Bool :=
  (List.range img.height).any fun y =>
    (List.range img.width).any fun x => decide (223 < getpixel img x y)

/-- Translation of `palette_nofb = palette[:-96] + [0] * 96`
(cli.py line 135): drop the last 96 channel values (32 RGB triples) of the
flattened palette and append 96 zero channel values. -/
def palette_nofb (palette : List Nat) : List Nat :=
  palette.take (palette.length - 96) ++ List.replicate 96 0

/-- The RGB triple stored at palette slot `i` of a flattened palette. -/
def entryColor (flat : List Nat) (i : Nat) : Rgb :=
  (flat.getD (3 * i) 0, flat.getD (3 * i + 1) 0, flat.getD (3 * i + 2) 0)

/-- The 256 RGB triples of a flattened palette, in slot order: the palette
carried by the `palette_image` objects handed to `Image.quantize`. -/
def paletteEntries (flat : List Nat) : List Rgb :=
  (List.range 256).map (entryColor flat)

/-- Squared difference of two channel values. -/
def chanDiffSq (a b : Nat) : Nat :=
  (max a b - min a b) ^ 2

/-- Squared Euclidean distance between two RGB colors. -/
def sqDist (a b : Rgb) : Nat :=
  chanDiffSq a.1 b.1 + chanDiffSq a.2.1 b.2.1 + chanDiffSq a.2.2 b.2.2

/-- Minimum of a list of naturals (0 for the empty list). -/
def listMin : List Nat → Nat
  | [] => 0
  | [d] => d
  | d :: e :: rest => min d (listMin (e :: rest))

/-- Position of the first occurrence of the minimum of a list. -/
def argminFirst : List Nat → Nat
  | [] => 0
  | [_] => 0
  | d :: e :: rest =>
    if d ≤ listMin (e :: rest) then 0 else argminFirst (e :: rest) + 1

/-- Modelled from the spec: the nearest-color search inside PIL's
`Image.quantize(palette=...)` (an external collaborator) — select the palette
index whose color minimizes the color distance, with the deterministic
lowest-index tie-break. -/
def nearestIndex (c : Rgb) (pal : List Rgb) : Nat :=
  argminFirst (pal.map (sqDist c))

/-- Modelled from the spec: quantization of an RGB image against a palette
(`img.convert('RGB').quantize(palette=palette_image)` in the source, via the
external PIL library): each pixel becomes the index of its nearest palette
color; dimensions are unchanged. -/
def quantize (img : RgbImage) (pal : List Rgb) : IndexedImage :=
  ⟨img.width, img.height, img.pixels.map fun c => nearestIndex c pal⟩

/-- Modelled from the spec: the nearest-neighbor resampling primitive used
when a P-mode image is resized (`img.resize(...)` on an indexed image, via
the external PIL library): every destination pixel samples one source pixel,
so index values are only moved, never invented. -/
def resizeNearest (img : IndexedImage) (w h : Nat) : IndexedImage :=
  ⟨w, h,
    ((List.range h).map fun y =>
      (List.range w).map fun x =>
        getpixel img (x * img.width / w) (y * img.height / h)).flatten⟩

/-- Translation of line 190 of cli.py:
`smooth_scaling = args.smooth_mip or (args.smart_mip and not has_fb)`,
where `has_fb = has_fullbright(img)` (line 178). -/
def smoothScaling (smooth_mip smart_mip : Bool) (img : IndexedImage) : Bool :=
  smooth_mip || (smart_mip && !(has_fullbright img))

/-- Translation of the body of the mip-map loop (cli.py lines 191 to 208):
level 0 is the quantized image unchanged; deeper levels are produced from the
RGB source by smooth resampling followed by quantization (against the
fullbright-stripped palette when the image had no fullbright pixel) when
smooth scaling is on, and by nearest-neighbor resampling of the already
quantized image otherwise.  `resizeRgb` stands for PIL's RGB `Image.resize`,
an external black-box resampler. -/
def mipLevelImage (resizeRgb : RgbImage → Nat → Nat → RgbImage)
    (flat : List Nat) (img : IndexedImage) (img_rgb : RgbImage)
    (has_fb smooth_scaling : Bool) (i : Nat) : IndexedImage :=
  if i = 0 then img
  else if smooth_scaling then
    let target_palette :=
      if has_fb then paletteEntries flat else paletteEntries (palette_nofb flat)
    quantize (resizeRgb img_rgb (img.width / 2 ^ i) (img.height / 2 ^ i))
      target_palette
  else
    resizeNearest img (img.width / 2 ^ i) (img.height / 2 ^ i)

/-- The pixel data of one mip level, `resized_image.tobytes()` /
`img.tobytes()` in the source. -/
def mipDataOf (resizeRgb : RgbImage → Nat → Nat → RgbImage)
    (flat : List Nat) (img : IndexedImage) (img_rgb : RgbImage)
    (has_fb smooth_scaling : Bool) (i : Nat) : List Nat :=
  (mipLevelImage resizeRgb flat img img_rgb has_fb smooth_scaling i).pixels

/-- The four mip level images produced by the loop, in order. -/
def buildPyramid (resizeRgb : RgbImage → Nat → Nat → RgbImage)
    (flat : List Nat) (img : IndexedImage) (img_rgb : RgbImage)
    (has_fb smooth_scaling : Bool) : List IndexedImage :=
  (List.range 4).map (mipLevelImage resizeRgb flat img img_rgb has_fb smooth_scaling)

/-- One iteration of the accumulation in the mip-map loop (cli.py lines 209
to 211): `mip.pixels += data` and, for the first three levels,
`mip.offsets += [mip.offsets[-1] + len(data)]`.  The accumulator pairs the
offsets list with the pixel list. -/
def mipFold (dataOf : Nat → List Nat) (acc : List Nat × List Nat) (i : Nat) :
    List Nat × List Nat :=
  let data := dataOf i
  (if i < 3 then acc.1 ++ [(acc.1.getLast?.getD 0) + data.length] else acc.1,
   acc.2 ++ data)

/-- The full accumulation of the mip-map loop, starting from
`mip.offsets = [40]` and `mip.pixels = []` (cli.py lines 186 to 187). -/
def mipBuild (dataOf : Nat → List Nat) : List Nat × List Nat :=
  (List.range 4).foldl (mipFold dataOf) ([40], [])

/-- The size in bytes of the fixed MIPTEX header: a 16-byte name, a 4-byte
width, a 4-byte height and four 4-byte mip offsets (spec section 6, texture
lump layout) — the constant 40 hard-coded at cli.py line 186. -/
def miptexHeaderSize : Nat := 16 + 4 + 4 + 4 * 4

/-- Modelled from the spec: POSIX `os.path.basename` (an external standard
library helper) — the part of the path after the final slash. -/
def basename (path : List Char) : List Char :=
  path.foldl (fun acc c => if c = '/' then [] else acc ++ [c]) []

/-- Python's `str.split` on the separator character `'.'`: the maximal
dot-free pieces of the string, in order (a piece may be empty). -/
def splitDot : List Char → List (List Char)
  | [] => [[]]
  | c :: rest =>
    match splitDot rest with
    | [] => [[c]]
    | s :: ss => if c = '.' then [] :: s :: ss else (c :: s) :: ss

/-- Translation of `os.path.basename(file).split('.')[0]`
(cli.py lines 150 and 180): the stored lump name. -/
def lumpName (file : List Char) : List Char :=
  (splitDot (basename file)).headD []

/-- Modelled from the spec: the name the specification says is stored — the
base name "with its extension stripped", i.e. with the final dot and
everything after it removed when the base name contains a dot
(`os.path.splitext` semantics). -/
def specStripExt (file : List Char) : List Char :=
  let base := basename file
  if '.' ∈ base then ((base.reverse.dropWhile fun c => c ≠ '.').drop 1).reverse
  else base

/-- A decoded input image as handed over by `Image.open` (external):
whether it is in indexed (P) mode, its indices if so, and its RGB
conversion `img.convert(mode='RGB')`. -/
structure SrcImage where
  isIndexed : Bool
  indexed : IndexedImage
  rgb : RgbImage
deriving Repr, DecidableEq

/-- Translation of cli.py lines 174 to 177: the image the pipeline works on —
the source's own indices when it is P mode and raw-indexed mode is on,
otherwise its RGB conversion quantized against the full Quake palette. -/
def quantizedInput (flat : List Nat) (raw_color_mode : Bool) (src : SrcImage) :
    IndexedImage :=
  if src.isIndexed && raw_color_mode then src.indexed
  else quantize src.rgb (paletteEntries flat)

/-- The level-data function the mip-map loop of `processMiptex` runs on. -/
def miptexLevels (resizeRgb : RgbImage → Nat → Nat → RgbImage) (flat : List Nat)
    (raw_color_mode smooth_mip smart_mip : Bool) (src : SrcImage) :
    Nat → List Nat :=
  let img := quantizedInput flat raw_color_mode src
  mipDataOf resizeRgb flat img src.rgb (has_fullbright img)
    (smoothScaling smooth_mip smart_mip img)

/-- The in-memory MIPTEX record (`wad.Miptexture` of the external vgio
library as filled in by cli.py lines 182 to 211). -/
structure Miptexture where
  name : List Char
  width : Nat
  height : Nat
  offsets : List Nat
  pixels : List Nat
deriving Repr, DecidableEq

/-- The compression tag of a directory entry; only NONE is ever used. -/
inductive CompressionType where
  | NONE
deriving Repr, DecidableEq

/-- The lump-type tag of a directory entry. -/
inductive LumpType where
  | LUMP
  | QPIC
  | MIPTEX
deriving Repr, DecidableEq

/-- A directory entry (`wad.WadInfo` as filled in by cli.py
lines 217 to 221). -/
structure WadInfo where
  name : List Char
  file_size : Nat
  disk_size : Nat
  compression : CompressionType
  lump_type : LumpType
deriving Repr, DecidableEq

/-- Translation of the MIPTEX branch of the per-file loop
(cli.py lines 172 to 221): quantize the decoded image, detect fullbright
pixels, resolve the scaling policy, run the mip-map loop, and fill in the
MIPTEX record and its directory entry. -/
def processMiptex (resizeRgb : RgbImage → Nat → Nat → RgbImage)
    (flat : List Nat) (raw_color_mode smooth_mip smart_mip : Bool)
    (file : List Char) (src : SrcImage) : Miptexture × WadInfo :=
  let img := quantizedInput flat raw_color_mode src
  let name := lumpName file
  let build := mipBuild (miptexLevels resizeRgb flat raw_color_mode smooth_mip smart_mip src)
  (⟨name, img.width, img.height, build.1, build.2⟩,
   ⟨name, 40 + build.2.length, 40 + build.2.length,
    CompressionType.NONE, LumpType.MIPTEX⟩)

/-- Process the input list in order, stopping at the first failing input
(cli.py lines 140 and 227 to 228): the successfully appended lumps, paired
with the first error if one occurred.  Later inputs are not touched once a
step fails. -/
def processList {α β ε : Type} (step : α → Except ε β) :
    List α → List β × Option ε
  | [] => ([], none)
  | file :: rest =>
    match step file with
    | Except.error e => ([], some e)
    | Except.ok lump =>
      let r := processList step rest
      (lump :: r.1, r.2)

/-- The observable outcome of one `wad` run: which lumps the directory was
flushed with, whether the archive was closed, and the process exit code. -/
structure RunOutcome (β : Type) where
  flushed : List β
  archiveClosed : Bool
  exitCode : Nat
deriving Repr

/-- Translation of the run skeleton of `main` (cli.py lines 122, 140, 227 to
230): the `with wad.WadFile(...)` block processes inputs in order; on the
first error `parser.error` terminates the process with exit status 2, the
`with` block still closing the archive (flushing the directory with the
entries appended so far) on the way out; with no error the run falls through
to `sys.exit(0)`. -/
def runWad {α β ε : Type} (step : α → Except ε β) (inputs : List α) :
    RunOutcome β :=
  let r := processList step inputs
  ⟨r.1, true, match r.2 with | none => 0 | some _ => 2⟩

/-- The parsed command-line arguments that reach the body of `main`. -/
structure Args where
  file : List Char
  lump_type : LumpType
  raw_color_mode : Bool
  smooth_mip : Bool
  smart_mip : Bool
  quiet : Bool
deriving Repr, DecidableEq

/-- The two file modes `wad.WadFile` can be opened with: `'a'` (append) or
`'w'` (create a new archive). -/
inductive FileMode where
  | append
  | write
deriving Repr, DecidableEq

/-- Modelled from the spec: POSIX `os.path.dirname` (external) — the part of
the path before the final slash, empty when the path has no slash. -/
def dirname (path : List Char) : List Char :=
  if '/' ∈ path then ((path.reverse.dropWhile fun c => c ≠ '/').drop 1).reverse
  else []

/-- Translation of cli.py lines 118 to 120: `filemode = 'a'` replaced by
`'w'` when no regular file exists at the archive path.  `isfile` is the
result of `os.path.isfile(args.file)`. -/
def chooseFilemode (_args : Args) (isfile : Bool) : FileMode :=
  if isfile then FileMode.append else FileMode.write

/-- A filesystem effect of the prologue of `main`. -/
inductive FsEffect where
  | makedirs (dir : List Char)
  | openArchive (path : List Char) (mode : FileMode)
deriving Repr, DecidableEq

/-- Translation of cli.py lines 114 to 122, in order: ensure the archive's
directory exists (`os.makedirs(os.path.dirname(args.file) or '.',
exist_ok=True)`), then open the archive in the chosen mode. -/
def prepEffects (args : Args) (isfile : Bool) : List FsEffect :=
  let dir := if dirname args.file = [] then ['.'] else dirname args.file
  [FsEffect.makedirs dir,
   FsEffect.openArchive args.file (chooseFilemode args isfile)]

/-- A concrete stand-in for the external RGB resampler, used to exercise the
theorems on concrete inputs: it returns an all-black image of the requested
dimensions. -/
def resizeRgbEx (_im : RgbImage) (w h : Nat) : RgbImage :=
  ⟨w, h, List.replicate (w * h) ((0 : Nat), (0 : Nat), (0 : Nat))⟩

/-- A concrete per-input processing step used to exercise the run skeleton:
input 1 fails, every other input succeeds. -/
def stepEx : Nat → Except Unit Nat :=
  fun n => if n = 1 then Except.error () else Except.ok n

/-- A concrete decoded source image used to exercise the pipeline. -/
def srcEx : SrcImage :=
  ⟨false, ⟨1, 1, [0]⟩, ⟨1, 1, [((0 : Nat), (0 : Nat), (0 : Nat))]⟩⟩

/-- A concrete argument record used to exercise the prologue. -/
def argsEx : Args :=
  ⟨['t', 'e', 'x', '.', 'w', 'a', 'd'], LumpType.MIPTEX, false, false, false,
   false⟩

/-! Helper lemmas about the first-minimum search. -/

theorem argminFirst_lt_length (l : List Nat) (h : l ≠ []) :
    argminFirst l < l.length := by
  induction l with
  | nil => exact absurd rfl h
  | cons d rest ih =>
    cases rest with
    | nil => simp [argminFirst]
    | cons e rest2 =>
      by_cases hle : d ≤ listMin (e :: rest2)
      · simp [argminFirst, hle]
      · have h2 := ih (by simp)
        simp only [List.length_cons] at h2 ⊢
        simp only [argminFirst, if_neg hle]
        omega

theorem getD_argminFirst (l : List Nat) (h : l ≠ []) :
    l.getD (argminFirst l) 0 = listMin l := by
  induction l with
  | nil => exact absurd rfl h
  | cons d rest ih =>
    cases rest with
    | nil => simp [argminFirst, listMin]
    | cons e rest2 =>
      by_cases hle : d ≤ listMin (e :: rest2)
      · simp [argminFirst, listMin, hle, Nat.min_eq_left]
      · have hmin : listMin (d :: e :: rest2) = listMin (e :: rest2) := by
          simp only [listMin]
          omega
        simp only [argminFirst, if_neg hle, hmin]
        simpa using ih (by simp)

theorem listMin_lt_of_lt_argminFirst (l : List Nat) (k : Nat)
    (h : k < argminFirst l) : listMin l < l.getD k 0 := by
  induction l generalizing k with
  | nil => simp [argminFirst] at h
  | cons d rest ih =>
    cases rest with
    | nil => simp [argminFirst] at h
    | cons e rest2 =>
      by_cases hle : d ≤ listMin (e :: rest2)
      · simp [argminFirst, hle] at h
      · have hmin : listMin (d :: e :: rest2) = listMin (e :: rest2) := by
          simp only [listMin]
          omega
        simp only [argminFirst, if_neg hle] at h
        rw [hmin]
        cases k with
        | zero =>
          simpa using Nat.lt_of_not_le hle
        | succ k2 =>
          simpa using ih k2 (by omega)

theorem argminFirst_eq_zero_of_getD_eq (l : List Nat) (h : l ≠ [])
    (heq : l.getD (argminFirst l) 0 = l.getD 0 0) : argminFirst l = 0 := by
  by_contra h0
  have hk : (0 : Nat) < argminFirst l := Nat.pos_of_ne_zero h0
  have h1 := listMin_lt_of_lt_argminFirst l 0 hk
  have h2 := getD_argminFirst l h
  omega

/-! Helper lemmas about the palette. -/

theorem getD_palette_nofb (flat : List Nat) (hlen : flat.length = 768)
    (n : Nat) :
    (palette_nofb flat).getD n 0 = if n < 672 then flat.getD n 0 else 0 := by
  unfold palette_nofb
  rw [show flat.length - 96 = 672 by omega]
  have htake : (flat.take 672).length = 672 := by
    rw [List.length_take, hlen]
    omega
  by_cases h : n < 672
  · rw [if_pos h, List.getD_append _ _ _ _ (by omega)]
    rw [List.getD_eq_getElem _ _ (by omega), List.getElem_take,
      List.getD_eq_getElem _ _ (by omega)]
  · rw [if_neg h, List.getD_append_right _ _ _ _ (by omega), htake]
    by_cases h96 : n - 672 < 96
    · rw [List.getD_eq_getElem _ _ (by simpa using h96), List.getElem_replicate]
    · rw [List.getD_eq_default _ _ (by simpa using h96)]

theorem entryColor_palette_nofb_low (flat : List Nat)
    (hlen : flat.length = 768) (i : Nat) (hi : i < 224) :
    entryColor (palette_nofb flat) i = entryColor flat i := by
  unfold entryColor
  rw [getD_palette_nofb flat hlen, getD_palette_nofb flat hlen,
    getD_palette_nofb flat hlen, if_pos (by omega), if_pos (by omega),
    if_pos (by omega)]

theorem entryColor_palette_nofb_high (flat : List Nat)
    (hlen : flat.length = 768) (i : Nat) (h224 : 224 ≤ i) :
    entryColor (palette_nofb flat) i = ((0 : Nat), (0 : Nat), (0 : Nat)) := by
  unfold entryColor
  rw [getD_palette_nofb flat hlen, getD_palette_nofb flat hlen,
    getD_palette_nofb flat hlen, if_neg (by omega), if_neg (by omega),
    if_neg (by omega)]

theorem paletteEntries_length (flat : List Nat) :
    (paletteEntries flat).length = 256 := by
  simp [paletteEntries]

theorem paletteEntries_getD (flat : List Nat) (j : Nat) (hj : j < 256)
    (d : Rgb) : (paletteEntries flat).getD j d = entryColor flat j := by
  unfold paletteEntries
  rw [List.getD_eq_getElem _ _ (by simpa using hj), List.getElem_map]
  congr 1
  simp

/-- With a palette whose slots from 224 on repeat the color of slot 0, the
nearest-color search never answers an index above 223: the tie-break prefers
the lowest index, and slot 0 is at least as close as any fullbright slot. -/
theorem nearestIndex_le_223 (c : Rgb) (pal : List Rgb) (hne : pal ≠ [])
    (hdup : ∀ j, 224 ≤ j → j < pal.length →
      pal.getD j ((0 : Nat), (0 : Nat), (0 : Nat)) =
        pal.getD 0 ((0 : Nat), (0 : Nat), (0 : Nat))) :
    nearestIndex c pal ≤ 223 := by
  by_contra hgt
  push_neg at hgt
  unfold nearestIndex at hgt
  have hlne : pal.map (sqDist c) ≠ [] := by simpa using hne
  have hlt := argminFirst_lt_length (pal.map (sqDist c)) hlne
  have hmaplen : (pal.map (sqDist c)).length = pal.length := List.length_map _ _
  have hjlen : argminFirst (pal.map (sqDist c)) < pal.length := by omega
  have h0pos : 0 < pal.length := by omega
  have hpal := hdup _ (by omega) hjlen
  have h1 : (pal.map (sqDist c)).getD (argminFirst (pal.map (sqDist c))) 0 =
      sqDist c (pal.getD (argminFirst (pal.map (sqDist c)))
        ((0 : Nat), (0 : Nat), (0 : Nat))) := by
    rw [List.getD_eq_getElem _ _ hlt, List.getElem_map,
      List.getD_eq_getElem _ _ hjlen]
  have h0 : (pal.map (sqDist c)).getD 0 0 =
      sqDist c (pal.getD 0 ((0 : Nat), (0 : Nat), (0 : Nat))) := by
    rw [List.getD_eq_getElem _ _ (by omega), List.getElem_map,
      List.getD_eq_getElem _ _ h0pos]
  have heq : (pal.map (sqDist c)).getD (argminFirst (pal.map (sqDist c))) 0 =
      (pal.map (sqDist c)).getD 0 0 := by rw [h1, h0, hpal]
  have := argminFirst_eq_zero_of_getD_eq _ hlne heq
  omega

/-- Quantizing any RGB image against the fullbright-stripped palette yields
only indices at most 223, provided the full palette's slot 0 is black. -/
theorem quantize_nofb_le_223 (img : RgbImage) (flat : List Nat)
    (hlen : flat.length = 768)
    (hblack : entryColor flat 0 = ((0 : Nat), (0 : Nat), (0 : Nat))) :
    ∀ p ∈ (quantize img (paletteEntries (palette_nofb flat))).pixels,
      p ≤ 223 := by
  intro p hp
  simp only [quantize, List.mem_map] at hp
  obtain ⟨c, _, rfl⟩ := hp
  apply nearestIndex_le_223
  · intro h
    have := paletteEntries_length (palette_nofb flat)
    rw [h] at this
    simp at this
  · intro j h224 hj
    rw [paletteEntries_length] at hj
    rw [paletteEntries_getD _ _ hj, paletteEntries_getD _ _ (by omega),
      entryColor_palette_nofb_high flat hlen j h224,
      entryColor_palette_nofb_low flat hlen 0 (by omega), hblack]

/-- Every pixel of a nearest-neighbor resize samples some pixel of the
source image. -/
theorem resizeNearest_mem (img : IndexedImage) (w h : Nat)
    (hw : 0 < img.width) (hh : 0 < img.height)
    (hlen : img.pixels.length = img.width * img.height) :
    ∀ p ∈ (resizeNearest img w h).pixels, p ∈ img.pixels := by
  intro p hp
  simp only [resizeNearest, List.mem_flatten, List.mem_map, List.mem_range] at hp
  obtain ⟨row, ⟨y, hy, hrow⟩, hprow⟩ := hp
  rw [← hrow] at hprow
  simp only [List.mem_map, List.mem_range] at hprow
  obtain ⟨x, hx, hpx⟩ := hprow
  have hwpos : 0 < w := by omega
  have hhpos : 0 < h := by omega
  have hsx : x * img.width / w < img.width := by
    rw [Nat.div_lt_iff_lt_mul hwpos, Nat.mul_comm img.width w]
    exact (Nat.mul_lt_mul_right hw).mpr hx
  have hsy : y * img.height / h < img.height := by
    rw [Nat.div_lt_iff_lt_mul hhpos, Nat.mul_comm img.height h]
    exact (Nat.mul_lt_mul_right hh).mpr hy
  have hidx : (y * img.height / h) * img.width + x * img.width / w <
      img.pixels.length := by
    rw [hlen]
    calc (y * img.height / h) * img.width + x * img.width / w
        < (y * img.height / h + 1) * img.width := by rw [Nat.succ_mul]; omega
      _ ≤ img.height * img.width :=
          Nat.mul_le_mul_right _ (Nat.succ_le_of_lt hsy)
      _ = img.width * img.height := Nat.mul_comm _ _
  rw [← hpx]
  unfold getpixel
  rw [List.getD_eq_getElem _ _ hidx]
  exact List.getElem_mem hidx

/-! Helper lemmas about the fullbright scan. -/

theorem has_fullbright_iff (img : IndexedImage)
    (hlen : img.pixels.length = img.width * img.height) :
    has_fullbright img = true ↔ ∃ p ∈ img.pixels, 223 < p := by
  simp only [has_fullbright, List.any_eq_true, List.mem_range,
    decide_eq_true_eq, getpixel]
  constructor
  · rintro ⟨y, hy, x, hx, hp⟩
    have hidx : y * img.width + x < img.pixels.length := by
      rw [hlen]
      calc y * img.width + x < (y + 1) * img.width := by
            rw [Nat.succ_mul]; omega
        _ ≤ img.height * img.width :=
            Nat.mul_le_mul_right _ (Nat.succ_le_of_lt hy)
        _ = img.width * img.height := Nat.mul_comm _ _
    refine ⟨img.pixels.getD (y * img.width + x) 0, ?_, hp⟩
    rw [List.getD_eq_getElem _ _ hidx]
    exact List.getElem_mem hidx
  · rintro ⟨p, hp, h223⟩
    obtain ⟨idx, hidx, hval⟩ := List.mem_iff_getElem.mp hp
    have hw : 0 < img.width := by
      rcases Nat.eq_zero_or_pos img.width with h0 | h0
      · rw [hlen, h0] at hidx; omega
      · exact h0
    refine ⟨idx / img.width, ?_, idx % img.width, Nat.mod_lt _ hw, ?_⟩
    · rw [Nat.div_lt_iff_lt_mul hw]
      rw [hlen, Nat.mul_comm] at hidx
      exact hidx
    · have hsum : idx / img.width * img.width + idx % img.width = idx := by
        rw [Nat.mul_comm]
        exact Nat.div_add_mod idx img.width
      rw [hsum, List.getD_eq_getElem _ _ hidx, hval]
      exact h223

/-! Helper lemmas about the name derivation. -/

theorem splitDot_ne_nil (s : List Char) : splitDot s ≠ [] := by
  cases s with
  | nil => simp [splitDot]
  | cons c rest =>
    simp only [splitDot]
    cases h : splitDot rest with
    | nil => simp
    | cons a as =>
      by_cases hc : c = '.' <;> simp [hc]

theorem headD_splitDot (s : List Char) :
    (splitDot s).headD [] = s.takeWhile (fun c => c ≠ '.') := by
  induction s with
  | nil => rfl
  | cons c rest ih =>
    obtain ⟨a, as, heq⟩ : ∃ a as, splitDot rest = a :: as := by
      cases h : splitDot rest with
      | nil => exact absurd h (splitDot_ne_nil rest)
      | cons a as => exact ⟨a, as, rfl⟩
    rw [heq] at ih
    simp only [List.headD_cons] at ih
    by_cases hc : c = '.'
    · simp [splitDot, heq, hc, List.takeWhile_cons]
    · simp [splitDot, heq, hc, List.takeWhile_cons, ih]

/-! Helper lemmas about the run skeleton. -/

theorem processList_all_ok {α β ε : Type} (step : α → Except ε β)
    (inputs : List α) (hok : ∀ f ∈ inputs, (step f).isOk = true) :
    (processList step inputs).2 = none ∧
    (processList step inputs).1.length = inputs.length := by
  induction inputs with
  | nil => simp [processList]
  | cons f rest ih =>
    have hf := hok f (by simp)
    obtain ⟨b, hb⟩ : ∃ b, step f = Except.ok b := by
      cases h : step f with
      | error e => rw [h] at hf; simp [Except.isOk, Except.toBool] at hf
      | ok b => exact ⟨b, rfl⟩
    have ihr := ih (fun g hg => hok g (by simp [hg]))
    simp only [processList, hb]
    simpa using ihr

theorem processList_first_error {α β ε : Type} (step : α → Except ε β)
    (pre : List α) (bad : α) (post : List α) (e : ε)
    (hok : ∀ f ∈ pre, (step f).isOk = true) (hbad : step bad = Except.error e) :
    processList step (pre ++ bad :: post) =
      ((processList step pre).1, some e) := by
  induction pre with
  | nil => simp [processList, hbad]
  | cons f rest ih =>
    have hf := hok f (by simp)
    obtain ⟨b, hb⟩ : ∃ b, step f = Except.ok b := by
      cases h : step f with
      | error e2 => rw [h] at hf; simp [Except.isOk, Except.toBool] at hf
      | ok b => exact ⟨b, rfl⟩
    have ihr := ih (fun g hg => hok g (by simp [hg]))
    simp only [List.cons_append, processList, hb, List.append_eq, ihr]

/-! The claims. -/

/-- C1: the effective mip-scaling mode is smooth exactly when the
`smoothMip` flag is set, or the `smartMip` flag is set and the quantized
image has no pixel index above 223; otherwise nearest-neighbor scaling is
used. -/
theorem c1_scaling_mode (smooth_mip smart_mip : Bool) (img : IndexedImage)
    (hlen : img.pixels.length = img.width * img.height) :
    smoothScaling smooth_mip smart_mip img = true ↔
      (smooth_mip = true ∨
        (smart_mip = true ∧ ¬ ∃ p ∈ img.pixels, 223 < p)) := by
  have hfb := has_fullbright_iff img hlen
  cases h : has_fullbright img
  · rw [h] at hfb
    simp only [Bool.false_eq_true, false_iff] at hfb
    simp [smoothScaling, h, hfb]
  · rw [h] at hfb
    simp only [true_iff] at hfb
    simp [smoothScaling, h, hfb]

/-- C1 witness: a 1 by 1 image holding the single fullbright index 250,
with only the smartMip flag set, resolves to nearest-neighbor scaling. -/
theorem c1_scaling_mode_witness :
    smoothScaling false true ⟨1, 1, [250]⟩ = false := by
  have h := c1_scaling_mode false true ⟨1, 1, [250]⟩ (by decide)
  cases hv : smoothScaling false true ⟨1, 1, [250]⟩
  · rfl
  · rcases h.mp hv with h1 | ⟨_, h2⟩
    · exact absurd h1 (by decide)
    · exact absurd ⟨250, by decide, by decide⟩ h2

/-- C3: `has_fullbright` answers true exactly when some pixel index exceeds
223, and in particular answers false on an image whose indices are all
zero. -/
theorem c3_has_fullbright (img : IndexedImage)
    (hlen : img.pixels.length = img.width * img.height) :
    (has_fullbright img = true ↔ ∃ p ∈ img.pixels, 223 < p) ∧
    ((∀ p ∈ img.pixels, p = 0) → has_fullbright img = false) := by
  refine ⟨has_fullbright_iff img hlen, fun hz => ?_⟩
  rw [Bool.eq_false_iff]
  intro ht
  obtain ⟨p, hp, h223⟩ := (has_fullbright_iff img hlen).mp ht
  have := hz p hp
  omega

/-- C3 witness: on the all-zero 2 by 2 image the scan answers false, and on
a 2 by 2 image holding the index 250 it answers true. -/
theorem c3_has_fullbright_witness :
    has_fullbright ⟨2, 2, [0, 0, 0, 0]⟩ = false ∧
    has_fullbright ⟨2, 2, [0, 0, 250, 0]⟩ = true :=
  ⟨(c3_has_fullbright ⟨2, 2, [0, 0, 0, 0]⟩ (by decide)).2 (by decide),
   (c3_has_fullbright ⟨2, 2, [0, 0, 250, 0]⟩ (by decide)).1.mpr
     ⟨250, by decide, by decide⟩⟩

/-- C7: the derived no-fullbright palette keeps slots 0 to 223 of the full
palette unchanged and forces each slot 224 to 255 to black, the color of
slot 0. -/
theorem c7_nofb_palette (flat : List Nat) (hlen : flat.length = 768)
    (hblack : entryColor flat 0 = ((0 : Nat), (0 : Nat), (0 : Nat))) :
    (∀ i, i < 224 → entryColor (palette_nofb flat) i = entryColor flat i) ∧
    (∀ i, 224 ≤ i → i < 256 →
      entryColor (palette_nofb flat) i = ((0 : Nat), (0 : Nat), (0 : Nat)) ∧
      entryColor (palette_nofb flat) i = entryColor flat 0) := by
  refine ⟨fun i hi => entryColor_palette_nofb_low flat hlen i hi,
    fun i h1 _ => ⟨entryColor_palette_nofb_high flat hlen i h1, ?_⟩⟩
  rw [entryColor_palette_nofb_high flat hlen i h1, hblack]

/-- Any lookup into the all-zero flat palette yields the zero channel. -/
theorem getD_replicate768 (k : Nat) :
    (List.replicate 768 (0 : Nat)).getD k 0 = 0 := by
  by_cases h : k < 768
  · have hlt : k < (List.replicate 768 (0 : Nat)).length := by
      rw [List.length_replicate]; exact h
    rw [List.getD_eq_getElem _ _ hlt, List.getElem_replicate]
  · have hge : (List.replicate 768 (0 : Nat)).length ≤ k := by
      rw [List.length_replicate]; omega
    rw [List.getD_eq_default _ _ hge]

/-- C7 witness: on a concrete all-black 768-value flat palette, slot 10 is
unchanged and slot 240 is forced to slot 0's color. -/
theorem c7_nofb_palette_witness :
    entryColor (palette_nofb (List.replicate 768 0)) 10 =
      entryColor (List.replicate 768 0) 10 ∧
    entryColor (palette_nofb (List.replicate 768 0)) 240 =
      entryColor (List.replicate 768 0) 0 :=
  ⟨(c7_nofb_palette (List.replicate 768 0) (List.length_replicate 768 0)
      (by rw [entryColor, getD_replicate768, getD_replicate768,
        getD_replicate768])).1 10 (by omega),
   ((c7_nofb_palette (List.replicate 768 0) (List.length_replicate 768 0)
      (by rw [entryColor, getD_replicate768, getD_replicate768,
        getD_replicate768])).2 240 (by omega) (by omega)).2⟩

/-- C10: the archive open mode ignores every flag and depends only on
whether a regular file already exists at the archive path — append mode
exactly when it does, create mode otherwise — and the path's directory is
ensured to exist before the archive is opened. -/
theorem c10_open_mode (args : Args) (isfile : Bool) :
    (chooseFilemode args isfile = FileMode.append ↔ isfile = true) ∧
    (∀ args2 : Args, chooseFilemode args2 isfile = chooseFilemode args isfile) ∧
    prepEffects args isfile =
      [FsEffect.makedirs
        (if dirname args.file = [] then ['.'] else dirname args.file),
       FsEffect.openArchive args.file (chooseFilemode args isfile)] := by
  refine ⟨?_, fun args2 => rfl, rfl⟩
  unfold chooseFilemode
  cases isfile <;> simp

/-- Dimensions of a deeper mip level: whatever the scaling path, the level
is built at the halved target dimensions, provided the external RGB
resampler honors its requested dimensions. -/
theorem mipLevelImage_dims (resizeRgb : RgbImage → Nat → Nat → RgbImage)
    (flat : List Nat) (img : IndexedImage) (img_rgb : RgbImage)
    (has_fb smooth : Bool) (i : Nat)
    (hres : ∀ im w h2, (resizeRgb im w h2).width = w ∧
      (resizeRgb im w h2).height = h2)
    (hi : i ≠ 0) :
    (mipLevelImage resizeRgb flat img img_rgb has_fb smooth i).width =
      img.width / 2 ^ i ∧
    (mipLevelImage resizeRgb flat img img_rgb has_fb smooth i).height =
      img.height / 2 ^ i := by
  unfold mipLevelImage
  rw [if_neg hi]
  cases smooth
  · simp [resizeNearest]
  · cases has_fb <;>
      simp [quantize,
        (hres img_rgb (img.width / 2 ^ i) (img.height / 2 ^ i)).1,
        (hres img_rgb (img.width / 2 ^ i) (img.height / 2 ^ i)).2]

/-- C4: the mip pyramid has exactly 4 levels, level i has dimensions
(floor(W / 2^i), floor(H / 2^i)) for i in 0..3, and level 0 is the quantized
level-0 indexed image unchanged, provided the external RGB resampler honors
its requested dimensions. -/
theorem c4_pyramid (resizeRgb : RgbImage → Nat → Nat → RgbImage)
    (flat : List Nat) (img : IndexedImage) (img_rgb : RgbImage)
    (has_fb smooth : Bool)
    (hres : ∀ im w h2, (resizeRgb im w h2).width = w ∧
      (resizeRgb im w h2).height = h2) :
    (buildPyramid resizeRgb flat img img_rgb has_fb smooth).length = 4 ∧
    (∀ i, i < 4 →
      ((buildPyramid resizeRgb flat img img_rgb has_fb smooth).getD i
          ⟨0, 0, []⟩).width = img.width / 2 ^ i ∧
      ((buildPyramid resizeRgb flat img img_rgb has_fb smooth).getD i
          ⟨0, 0, []⟩).height = img.height / 2 ^ i) ∧
    (buildPyramid resizeRgb flat img img_rgb has_fb smooth).getD 0 ⟨0, 0, []⟩
      = img := by
  have hbp : buildPyramid resizeRgb flat img img_rgb has_fb smooth =
      [mipLevelImage resizeRgb flat img img_rgb has_fb smooth 0,
       mipLevelImage resizeRgb flat img img_rgb has_fb smooth 1,
       mipLevelImage resizeRgb flat img img_rgb has_fb smooth 2,
       mipLevelImage resizeRgb flat img img_rgb has_fb smooth 3] := rfl
  have h0 : mipLevelImage resizeRgb flat img img_rgb has_fb smooth 0 = img := by
    simp [mipLevelImage]
  refine ⟨by simp [hbp], ?_, by rw [hbp]; simpa using h0⟩
  intro i hi
  interval_cases i
  · rw [hbp]
    simp [h0]
  · rw [hbp]
    simp only [List.getD_cons_succ, List.getD_cons_zero]
    exact mipLevelImage_dims resizeRgb flat img img_rgb has_fb smooth 1 hres
      (by omega)
  · rw [hbp]
    simp only [List.getD_cons_succ, List.getD_cons_zero]
    exact mipLevelImage_dims resizeRgb flat img img_rgb has_fb smooth 2 hres
      (by omega)
  · rw [hbp]
    simp only [List.getD_cons_succ, List.getD_cons_zero]
    exact mipLevelImage_dims resizeRgb flat img img_rgb has_fb smooth 3 hres
      (by omega)

/-- C4 witness: on a concrete 8 by 8 image the pyramid has 4 levels and its
level 0 is the input image unchanged. -/
theorem c4_pyramid_witness :
    (buildPyramid resizeRgbEx [] ⟨8, 8, List.replicate 64 0⟩ ⟨8, 8, []⟩
        false false).length = 4 ∧
    (buildPyramid resizeRgbEx [] ⟨8, 8, List.replicate 64 0⟩ ⟨8, 8, []⟩
            false false).getD 0 ⟨0, 0, []⟩ =
      ⟨8, 8, List.replicate 64 0⟩ :=
  ⟨(c4_pyramid resizeRgbEx [] ⟨8, 8, List.replicate 64 0⟩ ⟨8, 8, []⟩
      false false (fun _ _ _ => ⟨rfl, rfl⟩)).1,
   (c4_pyramid resizeRgbEx [] ⟨8, 8, List.replicate 64 0⟩ ⟨8, 8, []⟩
      false false (fun _ _ _ => ⟨rfl, rfl⟩)).2.2⟩

/-- C2: when the quantized level-0 image has no pixel index above 223 and
smooth scaling is used, each mip level 1 to 3 is the quantization, against
the fullbright-stripped palette, of the resampled RGB source — and so holds
no pixel index above 223. -/
theorem c2_smooth_keeps_nofullbright (resizeRgb : RgbImage → Nat → Nat → RgbImage)
    (flat : List Nat) (img : IndexedImage) (img_rgb : RgbImage)
    (hflat : flat.length = 768)
    (hblack : entryColor flat 0 = ((0 : Nat), (0 : Nat), (0 : Nat)))
    (hlen : img.pixels.length = img.width * img.height)
    (hnofb : ¬ ∃ p ∈ img.pixels, 223 < p)
    (i : Nat) (h1 : 1 ≤ i) (h4 : i < 4) :
    mipLevelImage resizeRgb flat img img_rgb (has_fullbright img) true i =
      quantize (resizeRgb img_rgb (img.width / 2 ^ i) (img.height / 2 ^ i))
        (paletteEntries (palette_nofb flat)) ∧
    ∀ p ∈ (mipLevelImage resizeRgb flat img img_rgb (has_fullbright img)
        true i).pixels, p ≤ 223 := by
  have hfb : has_fullbright img = false := by
    rw [Bool.eq_false_iff]
    intro ht
    exact hnofb ((has_fullbright_iff img hlen).mp ht)
  have hstep : mipLevelImage resizeRgb flat img img_rgb (has_fullbright img)
      true i =
      quantize (resizeRgb img_rgb (img.width / 2 ^ i) (img.height / 2 ^ i))
        (paletteEntries (palette_nofb flat)) := by
    unfold mipLevelImage
    rw [if_neg (by omega), hfb]
    simp
  refine ⟨hstep, ?_⟩
  rw [hstep]
  exact quantize_nofb_le_223 _ flat hflat hblack

/-- C2 witness: a concrete 1 by 1 all-zero image under the smooth path and
the all-black palette gets its level 1 from quantization against the
fullbright-stripped palette. -/
theorem c2_smooth_keeps_nofullbright_witness :
    mipLevelImage resizeRgbEx (List.replicate 768 0) ⟨1, 1, [0]⟩
        ⟨1, 1, [((0 : Nat), (0 : Nat), (0 : Nat))]⟩
        (has_fullbright ⟨1, 1, [0]⟩) true 1 =
      quantize (resizeRgbEx ⟨1, 1, [((0 : Nat), (0 : Nat), (0 : Nat))]⟩ 0 0)
        (paletteEntries (palette_nofb (List.replicate 768 0))) :=
  (c2_smooth_keeps_nofullbright resizeRgbEx (List.replicate 768 0)
    ⟨1, 1, [0]⟩ ⟨1, 1, [((0 : Nat), (0 : Nat), (0 : Nat))]⟩
    (List.length_replicate 768 0)
    (by rw [entryColor, getD_replicate768, getD_replicate768,
      getD_replicate768])
    rfl (by decide) 1 (by decide) (by decide)).1

/-- C8: when nearest-neighbor scaling is used, each mip level 1 to 3 is the
nearest-neighbor resampling of the already quantized level-0 image, so every
pixel index of those levels already occurs in level 0. -/
theorem c8_nearest_preserves_indices (resizeRgb : RgbImage → Nat → Nat → RgbImage)
    (flat : List Nat) (img : IndexedImage) (img_rgb : RgbImage)
    (has_fb : Bool)
    (hw : 0 < img.width) (hh : 0 < img.height)
    (hlen : img.pixels.length = img.width * img.height)
    (i : Nat) (h1 : 1 ≤ i) (h4 : i < 4) :
    mipLevelImage resizeRgb flat img img_rgb has_fb false i =
      resizeNearest img (img.width / 2 ^ i) (img.height / 2 ^ i) ∧
    ∀ p ∈ (mipLevelImage resizeRgb flat img img_rgb has_fb false i).pixels,
      p ∈ img.pixels := by
  have hstep : mipLevelImage resizeRgb flat img img_rgb has_fb false i =
      resizeNearest img (img.width / 2 ^ i) (img.height / 2 ^ i) := by
    unfold mipLevelImage
    rw [if_neg (by omega)]
    simp
  refine ⟨hstep, ?_⟩
  rw [hstep]
  exact resizeNearest_mem img _ _ hw hh hlen

/-- C8 witness: on a concrete 2 by 2 image the nearest path's level 1 is the
nearest-neighbor resize of level 0. -/
theorem c8_nearest_preserves_indices_witness :
    mipLevelImage resizeRgbEx [] ⟨2, 2, [0, 1, 2, 3]⟩ ⟨2, 2, []⟩ false false 1
      = resizeNearest ⟨2, 2, [0, 1, 2, 3]⟩ 1 1 :=
  (c8_nearest_preserves_indices resizeRgbEx [] ⟨2, 2, [0, 1, 2, 3]⟩ ⟨2, 2, []⟩
    false (by decide) (by decide) rfl 1 (by decide) (by decide)).1

/-- C5: in the encoded MIPTEX record, offset 0 is the 40-byte fixed header
size, each later offset is the previous one plus the byte length of the
previous level's pixels, and the directory entry reports matching file and
disk sizes of 40 plus the total pixel bytes of all four levels. -/
theorem c5_offsets_and_sizes (resizeRgb : RgbImage → Nat → Nat → RgbImage)
    (flat : List Nat) (raw_color_mode smooth_mip smart_mip : Bool)
    (file : List Char) (src : SrcImage) :
    (processMiptex resizeRgb flat raw_color_mode smooth_mip smart_mip file
        src).1.offsets.length = 4 ∧
    (processMiptex resizeRgb flat raw_color_mode smooth_mip smart_mip file
        src).1.offsets.getD 0 0 = miptexHeaderSize ∧
    (∀ i, 1 ≤ i → i < 4 →
      (processMiptex resizeRgb flat raw_color_mode smooth_mip smart_mip file
          src).1.offsets.getD i 0 =
        (processMiptex resizeRgb flat raw_color_mode smooth_mip smart_mip file
            src).1.offsets.getD (i - 1) 0 +
          (miptexLevels resizeRgb flat raw_color_mode smooth_mip smart_mip src
            (i - 1)).length) ∧
    (processMiptex resizeRgb flat raw_color_mode smooth_mip smart_mip file
        src).2.file_size =
      miptexHeaderSize +
        ((miptexLevels resizeRgb flat raw_color_mode smooth_mip smart_mip src
            0).length +
         (miptexLevels resizeRgb flat raw_color_mode smooth_mip smart_mip src
            1).length +
         (miptexLevels resizeRgb flat raw_color_mode smooth_mip smart_mip src
            2).length +
         (miptexLevels resizeRgb flat raw_color_mode smooth_mip smart_mip src
            3).length) ∧
    (processMiptex resizeRgb flat raw_color_mode smooth_mip smart_mip file
        src).2.disk_size =
      (processMiptex resizeRgb flat raw_color_mode smooth_mip smart_mip file
        src).2.file_size := by
  have hoff : (processMiptex resizeRgb flat raw_color_mode smooth_mip
      smart_mip file src).1.offsets =
      [40,
       40 + (miptexLevels resizeRgb flat raw_color_mode smooth_mip smart_mip
          src 0).length,
       40 + (miptexLevels resizeRgb flat raw_color_mode smooth_mip smart_mip
          src 0).length +
         (miptexLevels resizeRgb flat raw_color_mode smooth_mip smart_mip
          src 1).length,
       40 + (miptexLevels resizeRgb flat raw_color_mode smooth_mip smart_mip
          src 0).length +
         (miptexLevels resizeRgb flat raw_color_mode smooth_mip smart_mip
          src 1).length +
         (miptexLevels resizeRgb flat raw_color_mode smooth_mip smart_mip
          src 2).length] := rfl
  have hfs : (processMiptex resizeRgb flat raw_color_mode smooth_mip smart_mip
      file src).2.file_size =
      40 + (((([] ++ miptexLevels resizeRgb flat raw_color_mode smooth_mip
          smart_mip src 0) ++
        miptexLevels resizeRgb flat raw_color_mode smooth_mip smart_mip src 1)
          ++
        miptexLevels resizeRgb flat raw_color_mode smooth_mip smart_mip src 2)
          ++
        miptexLevels resizeRgb flat raw_color_mode smooth_mip smart_mip src 3).length
      := rfl
  refine ⟨by rw [hoff]; rfl, by rw [hoff]; rfl, ?_, ?_, rfl⟩
  · intro i h1 h4
    interval_cases i <;> rw [hoff] <;> simp
  · rw [hfs]
    simp only [List.length_append, List.length_nil, miptexHeaderSize]
    omega

/-- C5 witness: on a concrete input the first stored offset is the header
size. -/
theorem c5_offsets_and_sizes_witness :
    (processMiptex resizeRgbEx [] false false false
        ['w', '.', 'p', 'n', 'g'] srcEx).1.offsets.getD 0 0 =
      miptexHeaderSize :=
  (c5_offsets_and_sizes resizeRgbEx [] false false false
    ['w', '.', 'p', 'n', 'g'] srcEx).2.1

/-- C6 counterexample: for the input file name "wall.01.png" the code stores
the name "wall" (everything from the first dot on is dropped), while the
base name with its extension stripped is "wall.01" — so the stored name is
not the base name with its extension stripped. -/
theorem c6_counterexample :
    lumpName "wall.01.png".toList = "wall".toList ∧
    specStripExt "wall.01.png".toList = "wall.01".toList ∧
    lumpName "wall.01.png".toList ≠ specStripExt "wall.01.png".toList := by
  decide

/-- C6 amended: the stored lump name is the input file's base name truncated
at its first dot (everything from the first dot on is dropped); in
particular a file named "wall01.png" stores the entry name "wall01". -/
theorem c6_name_truncated_at_first_dot (file : List Char) :
    lumpName file = (basename file).takeWhile (fun c => c ≠ '.') ∧
    lumpName "wall01.png".toList = "wall01".toList := by
  exact ⟨headD_splitDot (basename file), by decide⟩

/-- C6 witness: the scenario instance, read off from the amended theorem. -/
theorem c6_name_truncated_witness :
    lumpName "wall01.png".toList = "wall01".toList :=
  (c6_name_truncated_at_first_dot "wall01.png".toList).2

/-- C9: the archive is always closed (directory flushed); when every input
processes successfully the run exits with status 0 having flushed one entry
per input; the first failing input makes the exit status nonzero, the
flushed entries are exactly those of the successful prefix, and the inputs
after the failing one are never processed (the outcome does not depend on
them). -/
theorem c9_error_policy {α β ε : Type} (step : α → Except ε β)
    (inputs : List α) :
    (runWad step inputs).archiveClosed = true ∧
    ((∀ f ∈ inputs, (step f).isOk = true) →
      (runWad step inputs).exitCode = 0 ∧
      (runWad step inputs).flushed.length = inputs.length) ∧
    (∀ pre bad post e, inputs = pre ++ bad :: post →
      (∀ f ∈ pre, (step f).isOk = true) →
      step bad = Except.error e →
      (runWad step inputs).exitCode ≠ 0 ∧
      (runWad step inputs).flushed = (processList step pre).1 ∧
      (∀ post2 : List α,
        (runWad step (pre ++ bad :: post2)).flushed =
          (runWad step inputs).flushed)) := by
  refine ⟨rfl, ?_, ?_⟩
  · intro hok
    have h := processList_all_ok step inputs hok
    constructor
    · show (match (processList step inputs).2 with
        | none => 0 | some _ => 2) = 0
      rw [h.1]
    · exact h.2
  · rintro pre bad post e rfl hok hbad
    have h := processList_first_error step pre bad post e hok hbad
    refine ⟨?_, ?_, fun post2 => ?_⟩
    · show (match (processList step (pre ++ bad :: post)).2 with
        | none => 0 | some _ => 2) ≠ 0
      rw [h]
      simp
    · show (processList step (pre ++ bad :: post)).1 = (processList step pre).1
      rw [h]
    · have h2 := processList_first_error step pre bad post2 e hok hbad
      show (processList step (pre ++ bad :: post2)).1 =
        (processList step (pre ++ bad :: post)).1
      rw [h, h2]

/-- C9 witness: with a step that fails on input 1, the run over inputs
0, 1, 2 closes the archive, exits nonzero, and flushes only input 0's
entry. -/
theorem c9_error_policy_witness :
    (runWad stepEx [0, 1, 2]).archiveClosed = true ∧
    (runWad stepEx [0, 1, 2]).exitCode ≠ 0 ∧
    (runWad stepEx [0, 1, 2]).flushed = [0] :=
  ⟨(c9_error_policy stepEx [0, 1, 2]).1,
   ((c9_error_policy stepEx [0, 1, 2]).2.2 [0] 1 [2] () rfl (by decide)
     rfl).1,
   by
    rw [((c9_error_policy stepEx [0, 1, 2]).2.2 [0] 1 [2] () rfl (by decide)
      rfl).2.1]
    rfl⟩

/-- C10 witness: with the flags all off and an existing archive file, the
chosen mode is append. -/
theorem c10_open_mode_witness :
    chooseFilemode argsEx true = FileMode.append :=
  (c10_open_mode argsEx true).1.mpr rfl
